import Mathlib

/-!
A shallow embedding of hbd2tex.py, the converter from hierarchical box
diagram descriptions to LaTeX markup, together with proofs about its
reader (process_box, process_line, the regular-expression recognizers)
and its renderer (the to_string methods of the element classes).

Input lines are modelled as lists of characters; each compiled regular
expression of the source is modelled by a dedicated recognizer function
with the same matching semantics on newline-free lines (the program only
ever applies them to single lines of text).  The Python parent pointers
of Contained elements are modelled by passing the chain of ancestor
boxes, innermost first, to the rendering functions.
-/

namespace Hbd2Tex

/-- Characters of a string literal, used to write lines and markup. -/
abbrev S (s : String) : List Char := s.data

/-- One input line. -/
abbrev Line := List Char

/-- The character class matched by the regular expression class backslash-s
on ASCII text, as used by all the patterns of the source. -/
def isSpacePy (c : Char) : Bool :=
  c = ' ' ∨ c = '\t' ∨ c = '\n' ∨ c = '\r' ∨ c = '\x0b' ∨ c = '\x0c'

/-- The character class matched by the regular expression class backslash-w
on ASCII text. -/
def isWordPy (c : Char) : Bool :=
  c.isAlpha ∨ c.isDigit ∨ c = '_'

/-- Python line.rstrip(): remove trailing whitespace. -/
def rstripPy (l : List Char) : List Char :=
  (l.reverse.dropWhile isSpacePy).reverse

/-- Python re.sub of the pattern hash-dot-star with the empty string:
remove the first hash character and everything after it. -/
def stripComment (l : List Char) : List Char :=
  l.takeWhile (fun c => c ≠ '#')

/-- Match a literal sequence of characters at the start of the input,
returning the remainder on success. -/
def stripLit : List Char → List Char → Option (List Char)
  | [], s => some s
  | _ :: _, [] => none
  | a :: as, c :: cs => if c = a then stripLit as cs else none

/-- RE_EMPTY.match: the line consists of whitespace optionally followed
by a comment. -/
def matchEmpty (l : List Char) : Bool :=
  match l.dropWhile isSpacePy with
  | [] => true
  | c :: _ => c = '#'

/-- RE_BLOCK_END.match: optional whitespace followed by a closing brace. -/
def matchBlockEnd (l : List Char) : Bool :=
  match l.dropWhile isSpacePy with
  | [] => false
  | c :: _ => c = '\x7d'

/-- Match the pattern of RE_HOR_BOX, RE_VER_BOX and RE_PLAIN_BOX: optional
whitespace, the given keyword, optional whitespace, an opening brace. -/
def matchOpenBox (kw : List Char) (l : List Char) : Bool :=
  match stripLit kw (l.dropWhile isSpacePy) with
  | none => false
  | some r =>
    match r.dropWhile isSpacePy with
    | [] => false
    | c :: _ => c = '\x7b'

/-- Match the common pattern of RE_HOR_LABEL, RE_VER_LABEL and
RE_HOR_SPACE: optional whitespace, the keyword, at least one whitespace
character, then the captured rest of the line. -/
def matchKwLabel (kw : List Char) (l : List Char) : Option (List Char) :=
  match stripLit kw (l.dropWhile isSpacePy) with
  | none => none
  | some [] => none
  | some (c :: r) =>
    if isSpacePy c then some ((c :: r).dropWhile isSpacePy) else none

/-- RE_HOR_BOX_LABEL.match: optional whitespace, hbox, at least one
whitespace character, then a captured rest that does not start with an
opening brace (nor with whitespace, which the greedy whitespace
repetition has already consumed). -/
def matchHorBoxLabel (l : List Char) : Option (List Char) :=
  match stripLit (S "hbox") (l.dropWhile isSpacePy) with
  | none => none
  | some [] => none
  | some (c :: r) =>
    if isSpacePy c then
      match (c :: r).dropWhile isSpacePy with
      | [] => none
      | d :: ds => if d = '\x7b' then none else some (d :: ds)
    else none

/-- The body of the RE_COLOR and RE_ADORN_LR patterns after the optional
opening bracket: whitespace, the keyword, whitespace, an equals sign, a
nonempty captured word, whitespace, and a closing bracket or comma.
Returns the captured word and the remainder after the whole match. -/
def tryStyleBody (kw : List Char) (s : List Char) : Option (List Char × List Char) :=
  match stripLit kw (s.dropWhile isSpacePy) with
  | none => none
  | some t =>
    match t.dropWhile isSpacePy with
    | '=' :: u =>
      let w := u.takeWhile isWordPy
      if w = [] then none
      else
        match (u.dropWhile isWordPy).dropWhile isSpacePy with
        | [] => none
        | c :: rest => if c = ']' ∨ c = ',' then some (w, rest) else none
    | _ => none

/-- Attempt a RE_COLOR or RE_ADORN_LR match at the current position: an
optional opening bracket followed by the body.  At a position holding an
opening bracket the pattern without the bracket can never match, since
the body starts with a keyword letter, so no backtracking is needed. -/
def tryStyleAt (kw : List Char) (s : List Char) : Option (List Char × List Char) :=
  match s with
  | '[' :: t => tryStyleBody kw t
  | _ => tryStyleBody kw s

theorem stripLit_length {kw s r : List Char} (h : stripLit kw s = some r) :
    r.length ≤ s.length := by
  induction kw generalizing s with
  | nil => simp [stripLit] at h; simp [h]
  | cons a as ih =>
    match s with
    | [] => simp [stripLit] at h
    | c :: cs =>
      simp only [stripLit] at h
      split at h
      · exact Nat.le_succ_of_le (ih h)
      · exact absurd h (by simp)

theorem length_dropWhile_le (p : Char → Bool) (l : List Char) :
    (l.dropWhile p).length ≤ l.length := by
  induction l with
  | nil => simp
  | cons c cs ih =>
    by_cases h : p c
    · simp only [List.dropWhile_cons, h, if_true, List.length_cons]
      omega
    · simp [List.dropWhile_cons, h]

theorem tryStyleBody_length {kw s : List Char} {w rest : List Char}
    (h : tryStyleBody kw s = some (w, rest)) : rest.length < s.length := by
  simp only [tryStyleBody] at h
  split at h
  · exact absurd h (by simp)
  case _ t ht =>
    split at h
    case _ u hu =>
      by_cases hw : u.takeWhile isWordPy = []
      · simp [hw] at h
      · simp only [hw, if_false] at h
        split at h
        · exact absurd h (by simp)
        case _ c rest' hc =>
          split at h
          · have hr : rest = rest' := by
              have := h
              simp at this
              exact this.2.symm
            subst hr
            have h1 : rest.length < ((u.dropWhile isWordPy).dropWhile isSpacePy).length := by
              rw [hc]; simp
            have h2 : ((u.dropWhile isWordPy).dropWhile isSpacePy).length ≤ u.length :=
              le_trans (length_dropWhile_le _ _) (length_dropWhile_le _ _)
            have h3 : u.length < (t.dropWhile isSpacePy).length := by rw [hu]; simp
            have h4 : (t.dropWhile isSpacePy).length ≤ t.length := length_dropWhile_le _ _
            have h5 : t.length ≤ (s.dropWhile isSpacePy).length := stripLit_length ht
            have h6 : (s.dropWhile isSpacePy).length ≤ s.length := length_dropWhile_le _ _
            omega
          · exact absurd h (by simp)
    · exact absurd h (by simp)

theorem tryStyleAt_length {kw s : List Char} {w rest : List Char}
    (h : tryStyleAt kw s = some (w, rest)) : rest.length < s.length := by
  unfold tryStyleAt at h
  split at h
  case _ t => exact Nat.lt_succ_of_lt (tryStyleBody_length h)
  case _ => exact tryStyleBody_length h

/-- style_re.search: the captured word of the leftmost match, if any. -/
def findStyle (kw : List Char) : List Char → Option (List Char)
  | [] => none
  | c :: t =>
    match tryStyleAt kw (c :: t) with
    | some (w, _) => some w
    | none => findStyle kw t

/-- The scanning loop of style_re.sub, with a step counter that only
bounds the recursion: every step either consumes the matched span or
one character, so the length of the input always suffices. -/
def subStyleF (kw : List Char) : Nat → List Char → List Char
  | _, [] => []
  | 0, l => l
  | fu + 1, c :: t =>
    match tryStyleAt kw (c :: t) with
    | some (_, rest) => subStyleF kw fu rest
    | none => c :: subStyleF kw fu t

/-- style_re.sub: remove every non-overlapping match, scanning left to
right and continuing after the end of each match. -/
def subStyle (kw : List Char) (l : List Char) : List Char :=
  subStyleF kw l.length l

theorem subStyleF_irrel (kw : List Char) : ∀ (f1 : Nat) (l : List Char) (f2 : Nat),
    l.length ≤ f1 → l.length ≤ f2 → subStyleF kw f1 l = subStyleF kw f2 l := by
  intro f1
  induction f1 with
  | zero =>
    intro l f2 h1 _
    have : l = [] := List.eq_nil_of_length_eq_zero (Nat.le_zero.mp h1)
    subst this
    cases f2 <;> rfl
  | succ f ih =>
    intro l f2 h1 h2
    match l with
    | [] => cases f2 <;> rfl
    | c :: t =>
      match f2, h2 with
      | g + 1, h2 =>
        show subStyleF kw (f + 1) (c :: t) = subStyleF kw (g + 1) (c :: t)
        rw [subStyleF, subStyleF]
        cases hm : tryStyleAt kw (c :: t) with
        | none =>
          simp only [List.length_cons] at h1 h2
          rw [ih t g (by omega) (by omega)]
        | some p =>
          match p, hm with
          | (w, rest), hm =>
            have hlt : rest.length < (c :: t).length := tryStyleAt_length hm
            simp only [List.length_cons] at h1 h2 hlt
            exact ih rest g (by omega) (by omega)

theorem subStyle_cons_of_none {kw : List Char} {c : Char} {t : List Char}
    (h : tryStyleAt kw (c :: t) = none) : subStyle kw (c :: t) = c :: subStyle kw t := by
  show subStyleF kw (t.length + 1) (c :: t) = c :: subStyleF kw t.length t
  rw [subStyleF, h]

theorem subStyle_cons_of_some {kw : List Char} {c : Char} {t w rest : List Char}
    (h : tryStyleAt kw (c :: t) = some (w, rest)) :
    subStyle kw (c :: t) = subStyle kw rest := by
  have hlt : rest.length < (c :: t).length := tryStyleAt_length h
  show subStyleF kw (t.length + 1) (c :: t) = subStyleF kw rest.length rest
  rw [subStyleF, h]
  exact subStyleF_irrel kw t.length rest rest.length
    (by simp only [List.length_cons] at hlt; omega) (Nat.le_refl _)

/-- process_style: when the pattern matches somewhere, remove every match
from the line and return the first captured word; otherwise return the
line unchanged and the empty word (the Python empty string). -/
def process_style (kw : List Char) (line : List Char) : List Char × List Char :=
  match findStyle kw line with
  | some w => (subStyle kw line, w)
  | none => (line, [])

/-- The three concrete box variants of the source. -/
inductive BoxKind where
  | hor
  | plain
  | ver
deriving DecidableEq, Repr

/-- The tree of diagram elements.  A box stores its running column count
ncol exactly as the Python Box object does; a vertical label stores the
ordinal fixed at construction time. -/
inductive Element where
  | newLine : Element
  | horizontalLabel (label : List Char) (color : List Char) : Element
  | horizontalSpace (space : List Char) : Element
  | verticalLabel (label : List Char) (color : List Char) (ordinal : Nat) : Element
  | box (kind : BoxKind) (color : List Char) (separate : Bool) (ncol : Nat)
      (contents : List Element) : Element
deriving Repr

/-- required_columns of each element class: one for a vertical label,
zero for everything else including nested boxes. -/
def Element.required_columns : Element → Nat
  | .verticalLabel _ _ _ => 1
  | _ => 0

/-- end_line of each element class: a row break for a box, the empty
string for the leaves. -/
def Element.end_line : Element → List Char
  | .box _ _ _ _ _ => S "\\\\\n"
  | _ => []

/-- Box.add_element: append the child and grow ncol by the required
columns of the child.  On a leaf (on which Python has no such method and
would raise) this is the identity. -/
def Element.add_element : Element → Element → Element
  | .box k c s n xs, e => .box k c s (n + e.required_columns) (xs ++ [e])
  | b, _ => b

/-- The ncol attribute of a box.  A leaf has none in Python; the reader
only ever reads it from a box, and the default 1 is never consulted. -/
def Element.get_ncol : Element → Nat
  | .box _ _ _ n _ => n
  | _ => 1

/-- The data of an ancestor box that its descendants consult during
rendering: its class, its final column count and its separate flag. -/
structure BoxCtx where
  kind : BoxKind
  ncol : Nat
  separate : Bool
deriving DecidableEq, Repr

/-- Contained.top_container: follow the container chain (given innermost
first) to the top. -/
def top_container : List BoxCtx → BoxCtx → BoxCtx
  | [], self => self
  | c :: rest, _ => top_container rest c

/-- Contained.separate_boxes for a box with the given ancestor chain:
the separate flag of the top container. -/
def separate_boxes (anc : List BoxCtx) (self : BoxCtx) : Bool :=
  (top_container anc self).separate

/-- Contained.separate_boxes for a leaf with the given ancestor chain.
A leaf with no container never occurs (Python would raise); the default
false is never consulted by the reader output. -/
def leaf_separate : List BoxCtx → Bool
  | [] => false
  | c :: rest => separate_boxes rest c

/-- The ncol of the direct container of a leaf.  Leaves always have a
container in reader output; the default is never consulted. -/
def ctxNcol : List BoxCtx → Nat
  | [] => 1
  | c :: _ => c.ncol

/-- cell_color: a cellcolor command when a color is set, else nothing. -/
def cell_color (color : List Char) : List Char :=
  if color = [] then [] else S "\\cellcolor\x7b" ++ color ++ S "\x7d"

/-- vertical_adjustbox of a box of the given class whose ancestor chain
has the given classes: a VerticalBox answers the minus ninety degree
adjustment directly; a HorizontalBox or PlainBox delegates to its
container, or answers the plus ninety degree adjustment at the root. -/
def vertical_adjustbox : BoxKind → List BoxKind → List Char
  | .ver, _ => S "\\adjustbox\x7bangle=-90,margin=0 0.5em 0 0\x7d"
  | _, [] => S "\\adjustbox\x7bangle=90,margin=0 0 0 0.5em\x7d"
  | _, k :: ks => vertical_adjustbox k ks

/-- vertical_adjustbox of the direct container of a leaf. -/
def ctxAdjust : List BoxCtx → List Char
  | [] => []
  | c :: rest => vertical_adjustbox c.kind (rest.map (fun b => b.kind))

/-- Box.compose_repeat for a box with the given ncol. -/
def compose_repeat (ncol : Nat) (element separator left right : List Char) : List Char :=
  left ++ (List.replicate (ncol - 2) (element ++ separator)).flatten ++ element ++ right

/-- Box.vertical_border, with the PlainBox override. -/
def vertical_border (kind : BoxKind) (sep : Bool) (ncol : Nat) : List Char :=
  match kind with
  | .plain => []
  | _ => if sep ∧ ncol > 1 then S "||" else S "|"

/-- Box.top_horizontal_border, with the PlainBox override. -/
def top_horizontal_border (kind : BoxKind) : List Char :=
  match kind with
  | .plain => []
  | _ => S "\\hline% top box border\n"

/-- Box.bottom_horizontal_border, with the PlainBox override. -/
def bottom_horizontal_border (kind : BoxKind) (sep : Bool) (ncol : Nat) : List Char :=
  match kind with
  | .plain => []
  | _ =>
    (if sep ∧ ncol > 1 then
      S "\\hhline\x7b" ++ compose_repeat ncol (S ":=:") (S "b") (S "|b") (S "b|") ++
        S "\x7d% bottom box border\n"
    else S "\\hline") ++ S "\\noalign\x7b\\vskip 2mm\x7d% bottom box border\n"

mutual

/-- to_string of an element rendered with the given chain of ancestor
boxes, innermost first.  Follows the to_string methods of NewLine,
HorizontalLabel, HorizontalSpace, VerticalLabel, Box and VerticalBox. -/
def Element.to_string (anc : List BoxCtx) : Element → List Char
  | .newLine => S "\\\\\n"
  | .horizontalLabel label color =>
    S "\\multicolumn\x7b" ++ S (toString (ctxNcol anc - 1)) ++ S "\x7d\x7b|c|\x7d\x7b" ++
      cell_color color ++ label ++ S "\x7d \\\\\n"
  | .horizontalSpace space =>
    S "\\multicolumn\x7b" ++ S (toString (ctxNcol anc - 1)) ++
      S "\x7d\x7bc@\x7b\\hspace\x7b" ++ space ++ S "\x7d\x7d\x7d\x7b\x7d \\\\\n"
  | .verticalLabel label color ordinal =>
    let sb := leaf_separate anc
    let cn := ctxNcol anc
    (if ordinal = 1 then
      (if sb then
        S "\\hhline\x7b" ++ compose_repeat cn (S "-") (S "||") (S "||") (S "||") ++
          S "\x7d% vl\n"
      else S "\\hline% vl\n")
    else []) ++
    S "\\multicolumn\x7b1\x7d\x7b" ++
    (if sb then (if ordinal = 1 then S "||" else []) ++ S "c||\x7d"
     else S "|c" ++ (if ordinal = cn - 1 then S "|" else []) ++ S "\x7d") ++
    S "\x7b" ++ ctxAdjust anc ++
    S "\x7b" ++ cell_color color ++ label ++ S "\x7d\x7d" ++
    (if ordinal = cn - 1 then S "\\\\\n" else S "&\n")
  | .box kind color sep ncol contents =>
    let selfCtx : BoxCtx := ⟨kind, ncol, sep⟩
    let sb := separate_boxes anc selfCtx
    let vb := vertical_border kind sb ncol
    let spec := if sb then compose_repeat ncol (S "l") (S "||") vb vb
                else compose_repeat ncol (S "l") [] vb vb
    let inner :=
      (if color = [] then S "\x7b" else S "\\colorbox\x7b" ++ color ++ S "\x7d\x7b%\n") ++
      S "\\begin\x7btabular\x7d[t]\x7b" ++ spec ++ S "\x7d\n" ++
      top_horizontal_border kind ++
      renderContents (selfCtx :: anc) contents ++
      (match contents.getLast? with
       | some c => c.end_line
       | none => []) ++
      bottom_horizontal_border kind sb ncol ++
      S "\\end\x7btabular\x7d\x7d\\hspace\x7b1em\x7d"
    match kind with
    | .ver => S "\\rotatebox[origin=rt]\x7b90\x7d\x7b\n" ++ inner ++ S "\x7d\n"
    | _ => inner

/-- The concatenation of the renderings of the children of a box, in
insertion order, as done by the loop in Box.to_string. -/
def renderContents (anc : List BoxCtx) : List Element → List Char
  | [] => []
  | e :: es => e.to_string anc ++ renderContents anc es

end

/-- The keyword characters of RE_COLOR. -/
def litColor : List Char := S "color"

/-- The keyword characters of RE_ADORN_LR. -/
def litAdorn : List Char := S "adornlr"

mutual

/-- process_box: consume lines until a block-end line or the end of the
stream, adding the element of each line to the box.  The fuel counter
only bounds the recursion depth; the process_file wrapper passes enough
for any input. -/
def process_box : Nat → List Line → Element → Except String (Element × List Line)
  | _, [], box => .ok (box, [])
  | 0, _ :: _, _ => .error "recursion limit exceeded"
  | f + 1, line :: rest, box =>
    if matchBlockEnd line then .ok (box, rest)
    else
      match process_line f rest line box.get_ncol with
      | .error e => .error e
      | .ok (some el, rest2) => process_box f rest2 (box.add_element el)
      | .ok (none, rest2) => process_box f rest2 box

/-- process_line: classify one line and build its element, recursing
into process_box for the block-open directives; container_ncol is the
current ncol of the containing box, fixed as the ordinal of a vertical
label. -/
def process_line : Nat → List Line → Line → Nat → Except String (Option Element × List Line)
  | fuel, input, line, container_ncol =>
    let l1 := rstripPy line
    if l1 ≠ [] ∧ matchEmpty l1 = true then .ok (none, input)
    else
      let l2 := stripComment l1
      if l2 = [] then .ok (some .newLine, input)
      else
        let pc := process_style litColor l2
        let pa := process_style litAdorn pc.1
        let color := pc.2
        let adorn_lr := pa.2
        let l4 := pa.1
        let adorn_left := if adorn_lr = [] then [] else S "$\\" ++ adorn_lr ++ S "$ "
        let adorn_right := if adorn_lr = [] then [] else S " $\\" ++ adorn_lr ++ S "$"
        if matchOpenBox (S "hbox") l4 then
          match fuel with
          | 0 => .error "recursion limit exceeded"
          | f + 1 =>
            match process_box f input (.box .hor color false 1 []) with
            | .error e => .error e
            | .ok (b, rest) => .ok (some b, rest)
        else if matchOpenBox (S "vbox") l4 then
          match fuel with
          | 0 => .error "recursion limit exceeded"
          | f + 1 =>
            match process_box f input (.box .ver color false 1 []) with
            | .error e => .error e
            | .ok (b, rest) => .ok (some b, rest)
        else if matchOpenBox (S "pbox") l4 then
          match fuel with
          | 0 => .error "recursion limit exceeded"
          | f + 1 =>
            match process_box f input (.box .plain color false 1 []) with
            | .error e => .error e
            | .ok (b, rest) => .ok (some b, rest)
        else
          match matchKwLabel (S "hl") l4 with
          | some g =>
            .ok (some (.horizontalLabel (adorn_left ++ g ++ adorn_right) color), input)
          | none =>
            match matchKwLabel (S "hspace") l4 with
            | some g => .ok (some (.horizontalSpace g), input)
            | none =>
              match matchHorBoxLabel l4 with
              | some g =>
                .ok (some ((Element.box .hor color false 1 []).add_element
                  (.horizontalLabel (adorn_left ++ g ++ adorn_right) color)), input)
              | none =>
                match matchKwLabel (S "vl") l4 with
                | some g => .ok (some (.verticalLabel g color container_ncol), input)
                | none => .error ("Syntax error in line: " ++ String.mk l4)

end

/-- process_file: read the whole line stream into the implicit PlainBox
root, whose separate flag is the command line option, and render it.
The remainder returned by process_box is discarded, as the Python for
loop leaves any unread lines unread.  On a syntax error nothing is
rendered. -/
def process_file (separate : Bool) (lines : List Line) : Except String (List Char) :=
  match process_box (2 * lines.length + 4) lines (.box .plain [] separate 1 []) with
  | .error e => .error e
  | .ok (box, _) => .ok (box.to_string [])

/-! ## Helper lemmas about the recognizers -/

theorem process_box_nil (f : Nat) (box : Element) :
    process_box f [] box = .ok (box, []) := by
  cases f <;> rfl

theorem rstripPy_cons_of_ne {l : List Char} (c : Char) (h : rstripPy l ≠ []) :
    rstripPy (c :: l) = c :: rstripPy l := by
  unfold rstripPy at h ⊢
  have hne : (l.reverse.dropWhile isSpacePy).isEmpty = false := by
    cases hd : l.reverse.dropWhile isSpacePy with
    | nil => rw [hd] at h; simp at h
    | cons a t => simp
  simp only [List.reverse_cons, List.dropWhile_append, hne, if_false, Bool.false_eq_true,
    List.reverse_append, List.reverse_cons, List.reverse_nil, List.nil_append]
  simp

theorem rstripPy_cons_of_nonspace {l : List Char} {c : Char} (h : isSpacePy c = false) :
    rstripPy (c :: l) = c :: rstripPy l := by
  by_cases he : rstripPy l = []
  · unfold rstripPy at he ⊢
    have hd : l.reverse.dropWhile isSpacePy = [] := by
      have := congrArg List.reverse he
      simpa using this
    simp [List.dropWhile_append, hd, List.dropWhile_cons, h]
  · exact rstripPy_cons_of_ne c he

theorem rstripPy_append_of_ne {b : List Char} (a : List Char) (h : rstripPy b ≠ []) :
    rstripPy (a ++ b) = a ++ rstripPy b := by
  induction a with
  | nil => simp
  | cons c t ih =>
    have ht : rstripPy (t ++ b) ≠ [] := by
      rw [ih]
      intro hc
      exact h (by simpa using (List.append_eq_nil.mp hc).2)
    rw [List.cons_append, rstripPy_cons_of_ne c ht, ih, List.cons_append]

theorem stripComment_eq_self {l : List Char} (h : '#' ∉ l) : stripComment l = l := by
  unfold stripComment
  rw [List.takeWhile_eq_self_iff]
  intro x hx
  simp only [decide_eq_true_eq]
  intro he
  exact h (he ▸ hx)

theorem stripComment_ne_nil {l : List Char} (h1 : l ≠ []) (h2 : matchEmpty l = false) :
    stripComment l ≠ [] := by
  match l with
  | [] => exact absurd rfl h1
  | c :: t =>
    by_cases hc : c = '#'
    · subst hc
      exfalso
      simp [matchEmpty, List.dropWhile_cons, show isSpacePy '#' = false from rfl] at h2
    · simp [stripComment, List.takeWhile_cons, hc]

theorem stripLit_mem {kw s t : List Char} (h : stripLit kw s = some t) :
    ∀ c ∈ t, c ∈ s := by
  induction kw generalizing s with
  | nil =>
    simp [stripLit] at h
    subst h; exact fun c hc => hc
  | cons a as ih =>
    match s with
    | [] => simp [stripLit] at h
    | x :: xs =>
      simp only [stripLit] at h
      split at h
      · exact fun c hc => List.mem_cons_of_mem x (ih h c hc)
      · exact absurd h (by simp)

theorem stripLit_self_append (a b : List Char) : stripLit a (a ++ b) = some b := by
  induction a with
  | nil => simp [stripLit]
  | cons c t ih => simp [stripLit, ih]

theorem mem_of_mem_dropWhile {p : Char → Bool} {l : List Char} {c : Char}
    (h : c ∈ l.dropWhile p) : c ∈ l :=
  (List.dropWhile_suffix p).subset h

theorem tryStyleBody_eq_none_of_no_eq {kw s : List Char} (h : '=' ∉ s) :
    tryStyleBody kw s = none := by
  unfold tryStyleBody
  split
  · rfl
  case _ t ht =>
    split
    case _ u hu =>
      exfalso
      apply h
      apply mem_of_mem_dropWhile (p := isSpacePy)
      apply stripLit_mem ht
      apply mem_of_mem_dropWhile (p := isSpacePy)
      rw [hu]
      exact List.mem_cons_self _ _
    · rfl

theorem tryStyleAt_eq_none_of_no_eq {kw s : List Char} (h : '=' ∉ s) :
    tryStyleAt kw s = none := by
  unfold tryStyleAt
  split
  case _ t =>
    exact tryStyleBody_eq_none_of_no_eq (fun hm => h (List.mem_cons_of_mem _ hm))
  case _ =>
    exact tryStyleBody_eq_none_of_no_eq h

theorem findStyle_eq_none_of_no_eq {kw l : List Char} (h : '=' ∉ l) :
    findStyle kw l = none := by
  induction l with
  | nil => rfl
  | cons c t ih =>
    rw [findStyle, tryStyleAt_eq_none_of_no_eq h]
    exact ih (fun hm => h (List.mem_cons_of_mem _ hm))

theorem subStyle_eq_self_of_no_eq {kw l : List Char} (h : '=' ∉ l) :
    subStyle kw l = l := by
  induction l with
  | nil => rfl
  | cons c t ih =>
    rw [subStyle_cons_of_none (tryStyleAt_eq_none_of_no_eq h)]
    exact congrArg (c :: ·) (ih (fun hm => h (List.mem_cons_of_mem _ hm)))

theorem process_style_of_no_eq {kw l : List Char} (h : '=' ∉ l) :
    process_style kw l = (l, []) := by
  simp [process_style, findStyle_eq_none_of_no_eq h]

theorem get_ncol_foldl (es : List Element) (k : BoxKind) (c : List Char) (s : Bool)
    (n : Nat) (xs : List Element) :
    ((es.foldl Element.add_element (Element.box k c s n xs))).get_ncol
      = n + (es.map Element.required_columns).sum := by
  induction es generalizing n xs with
  | nil => simp [Element.get_ncol]
  | cons e es ih =>
    simp only [List.foldl_cons, Element.add_element, List.map_cons, List.sum_cons]
    rw [ih]
    omega

/-! ## Claim theorems -/

/-- C1: ncol starts at 1 in every freshly constructed Box and each
add_element call grows it by exactly the required_columns of the
appended child, which is 1 for a VerticalLabel and 0 for NewLine,
HorizontalLabel, HorizontalSpace and every Box variant; hence after all
children are appended the final ncol is 1 plus the sum of
required_columns over the direct children, and a nested box never
widens the column count of its parent. -/
theorem claim_C1_ncol_invariant :
    (∀ (l c : List Char) (o : Nat),
      Element.required_columns (.verticalLabel l c o) = 1) ∧
    (Element.required_columns .newLine = 0) ∧
    (∀ l c : List Char, Element.required_columns (.horizontalLabel l c) = 0) ∧
    (∀ sp : List Char, Element.required_columns (.horizontalSpace sp) = 0) ∧
    (∀ (k : BoxKind) (c : List Char) (s : Bool) (n : Nat) (xs : List Element),
      Element.required_columns (.box k c s n xs) = 0) ∧
    (∀ (k : BoxKind) (c : List Char) (s : Bool) (n : Nat) (xs : List Element)
      (e : Element),
      ((Element.box k c s n xs).add_element e).get_ncol = n + e.required_columns) ∧
    (∀ (k : BoxKind) (c : List Char) (s : Bool) (es : List Element),
      (es.foldl Element.add_element (Element.box k c s 1 [])).get_ncol
        = 1 + (es.map Element.required_columns).sum) := by
  refine ⟨fun _ _ _ => rfl, rfl, fun _ _ => rfl, fun _ => rfl, fun _ _ _ _ _ => rfl,
    fun _ _ _ _ _ _ => rfl, fun k c s es => get_ncol_foldl es k c s 1 []⟩

/-- C2: reading three vl lines into an otherwise empty horizontal box
assigns the labels the ordinals 1, 2 and 3, each fixed to the ncol of
the container at the moment of appending, and leaves the final ncol at
4; rendered against the finished container the ordinal 1 label emits a
leading horizontal rule, the ordinal 3 label (whose ordinal equals the
final ncol minus 1) ends its row with a row break, and the ordinal 2
label continues its row with a column separator. -/
theorem claim_C2_vl_ordinals :
    process_box 8 [S "vl A", S "vl B", S "vl C"] (.box .hor [] false 1 [])
      = .ok (.box .hor [] false 4
          [.verticalLabel (S "A") [] 1,
           .verticalLabel (S "B") [] 2,
           .verticalLabel (S "C") [] 3], []) ∧
    Element.to_string [⟨.hor, 4, false⟩] (.verticalLabel (S "A") [] 1)
      = S "\\hline% vl\n\\multicolumn\x7b1\x7d\x7b|c\x7d\x7b\\adjustbox\x7bangle=90,margin=0 0 0 0.5em\x7d\x7bA\x7d\x7d&\n" ∧
    Element.to_string [⟨.hor, 4, false⟩] (.verticalLabel (S "B") [] 2)
      = S "\\multicolumn\x7b1\x7d\x7b|c\x7d\x7b\\adjustbox\x7bangle=90,margin=0 0 0 0.5em\x7d\x7bB\x7d\x7d&\n" ∧
    Element.to_string [⟨.hor, 4, false⟩] (.verticalLabel (S "C") [] 3)
      = S "\\multicolumn\x7b1\x7d\x7b|c|\x7d\x7b\\adjustbox\x7bangle=90,margin=0 0 0 0.5em\x7d\x7bC\x7d\x7d\\\\\n" :=
  ⟨rfl, rfl, rfl, rfl⟩

theorem top_container_append (anc : List BoxCtx) (self root : BoxCtx) :
    top_container (anc ++ [root]) self = root := by
  induction anc generalizing self with
  | nil => rfl
  | cons c rest ih => exact ih c

/-- C9: the separate boxes flag consulted during rendering is the one of
the top container, reached by walking the container chain; for every
element, box or leaf, in any tree whose chain ends at a root with flag
s, separate_boxes answers s no matter what flags the intermediate boxes
or the element itself carry, and a root answers its own flag. -/
theorem claim_C9_separate_boxes_root :
    (∀ (anc : List BoxCtx) (self root : BoxCtx),
      separate_boxes (anc ++ [root]) self = root.separate) ∧
    (∀ self : BoxCtx, separate_boxes [] self = self.separate) ∧
    (∀ (anc : List BoxCtx) (root : BoxCtx),
      leaf_separate (anc ++ [root]) = root.separate) := by
  refine ⟨fun anc self root => ?_, fun self => rfl, fun anc root => ?_⟩
  · unfold separate_boxes
    rw [top_container_append]
  · match anc with
    | [] => rfl
    | c :: rest =>
      show separate_boxes (rest ++ [root]) c = root.separate
      unfold separate_boxes
      rw [top_container_append]

/-- C7 counterexample: a vertical label whose direct container is a
horizontal box is not always rendered with the plus ninety degree
adjustment: when that horizontal box sits inside a vertical box, the
rendered cell carries the minus ninety degree adjustment, because
HorizontalBox.vertical_adjustbox delegates to its own container. -/
theorem claim_C7_cex :
    Element.to_string [⟨.hor, 2, false⟩, ⟨.ver, 1, false⟩]
        (.verticalLabel (S "A") [] 1)
      = S "\\hline% vl\n\\multicolumn\x7b1\x7d\x7b|c|\x7d\x7b\\adjustbox\x7bangle=-90,margin=0 0.5em 0 0\x7d\x7bA\x7d\x7d\\\\\n" ∧
    vertical_adjustbox .hor [.ver]
      ≠ S "\\adjustbox\x7bangle=90,margin=0 0 0 0.5em\x7d" :=
  ⟨rfl, by decide⟩

/-- C7 amended: the rotation adjustment of a vertical label comes from
its container chain, not from the direct container alone: it is the
minus ninety degree adjustment exactly when the container or one of its
ancestors is a VerticalBox, and the plus ninety degree adjustment
otherwise; in particular a label directly inside a VerticalBox renders
rotated minus ninety degrees and one inside a HorizontalBox with no
enclosing vertical box renders rotated plus ninety degrees. -/
theorem claim_C7_adjust_chain :
    (∀ (k : BoxKind) (anc : List BoxKind),
      vertical_adjustbox k anc =
        if BoxKind.ver ∈ k :: anc
        then S "\\adjustbox\x7bangle=-90,margin=0 0.5em 0 0\x7d"
        else S "\\adjustbox\x7bangle=90,margin=0 0 0 0.5em\x7d") ∧
    Element.to_string [⟨.ver, 2, false⟩] (.verticalLabel (S "A") [] 1)
      = S "\\hline% vl\n\\multicolumn\x7b1\x7d\x7b|c|\x7d\x7b\\adjustbox\x7bangle=-90,margin=0 0.5em 0 0\x7d\x7bA\x7d\x7d\\\\\n" ∧
    Element.to_string [⟨.hor, 2, false⟩] (.verticalLabel (S "A") [] 1)
      = S "\\hline% vl\n\\multicolumn\x7b1\x7d\x7b|c|\x7d\x7b\\adjustbox\x7bangle=90,margin=0 0 0 0.5em\x7d\x7bA\x7d\x7d\\\\\n" := by
  refine ⟨fun k anc => ?_, rfl, rfl⟩
  induction anc generalizing k with
  | nil => cases k <;> simp [vertical_adjustbox]
  | cons c rest ih =>
    cases k with
    | ver => simp [vertical_adjustbox]
    | hor =>
      rw [show vertical_adjustbox .hor (c :: rest) = vertical_adjustbox c rest from rfl, ih]
      simp
    | plain =>
      rw [show vertical_adjustbox .plain (c :: rest) = vertical_adjustbox c rest from rfl, ih]
      simp

/-- C5 counterexample: a line consisting only of a comment does not
yield a NewLine element: process_line answers none for it, nothing is
appended to the container, and the file renders as an empty root box. -/
theorem claim_C5_cex :
    process_line 1 [] (S "# a comment") 1 = .ok (none, []) ∧
    process_line 1 [] (S "# a comment") 1 ≠ .ok (some Element.newLine, []) ∧
    process_file false [S "# a comment"]
      = .ok (Element.to_string [] (.box .plain [] false 1 [])) := by
  refine ⟨rfl, ?_, rfl⟩
  rw [show process_line 1 [] (S "# a comment") 1
      = Except.ok (none, ([] : List Line)) from rfl]
  simp

/-- C5 amended: every input line that is blank after stripping trailing
whitespace yields a NewLine element appended to the current container;
a line holding a comment, by contrast, is dropped before the comment
stripping step and yields no element at all. -/
theorem claim_C5_blank_newline (fuel : Nat) (input : List Line) (line : Line) (n : Nat)
    (h : rstripPy line = []) :
    process_line fuel input line n = .ok (some .newLine, input) := by
  rw [process_line, h]
  simp [stripComment]

/-- Witness for the C5 amended theorem at a whitespace-only line. -/
theorem claim_C5_blank_newline_witness :
    process_line 0 [S "hl x"] (S " \t ") 7 = .ok (some .newLine, [S "hl x"]) :=
  claim_C5_blank_newline 0 [S "hl x"] (S " \t ") 7 (by decide)

/-- C10: a line matching the block-close pattern while the implicit root
box is being read makes the reader return the root box as it stands at
that point, leaving every later line unread: process_box hands back the
untouched remainder, and process_file renders the root built so far
without classifying, checking or erroring on any of the remaining
lines. -/
theorem claim_C10_toplevel_close (line : Line) (h : matchBlockEnd line = true) :
    (∀ (f : Nat) (rest : List Line) (box : Element),
      process_box (f + 1) (line :: rest) box = .ok (box, rest)) ∧
    (∀ (sep : Bool) (rest : List Line),
      process_file sep (line :: rest)
        = .ok (Element.to_string [] (.box .plain [] sep 1 []))) := by
  have hb : ∀ (f : Nat) (rest : List Line) (box : Element),
      process_box (f + 1) (line :: rest) box = .ok (box, rest) := by
    intro f rest box
    simp [process_box, h]
  refine ⟨hb, fun sep rest => ?_⟩
  unfold process_file
  rw [show 2 * (line :: rest).length + 4 = (2 * rest.length + 5) + 1 by
    simp [List.length_cons]; ring]
  rw [hb]

/-- Witness for C10: a close brace line at the top of a file whose
remaining line would be a syntax error; the remainder is returned
unread and the file still renders. -/
theorem claim_C10_toplevel_close_witness :
    process_box 3 [S " \x7d", S "xyz abc"] (.box .hor (S "c") false 2 [.newLine])
      = .ok (.box .hor (S "c") false 2 [.newLine], [S "xyz abc"]) ∧
    process_file false [S " \x7d", S "xyz abc"]
      = .ok (Element.to_string [] (.box .plain [] false 1 [])) :=
  ⟨(claim_C10_toplevel_close (S " \x7d") (by decide)).1 2 [S "xyz abc"] _,
   (claim_C10_toplevel_close (S " \x7d") (by decide)).2 false [S "xyz abc"]⟩

/-- C4: a line that, after blank and comment stripping and annotation
extraction, matches no recognized directive makes process_line abort
with a diagnostic quoting the offending line in its stripped form, and
the whole file then yields that error and no rendered output: the root
box is rendered only when every line of the file was read without
error. -/
theorem claim_C4_syntax_error (line : Line) (L : List Char)
    (h0 : matchBlockEnd line = false)
    (h1 : rstripPy line ≠ [])
    (h2 : matchEmpty (rstripPy line) = false)
    (hL : (process_style litAdorn
        (process_style litColor (stripComment (rstripPy line))).1).1 = L)
    (h3 : matchOpenBox (S "hbox") L = false)
    (h4 : matchOpenBox (S "vbox") L = false)
    (h5 : matchOpenBox (S "pbox") L = false)
    (h6 : matchKwLabel (S "hl") L = none)
    (h7 : matchKwLabel (S "hspace") L = none)
    (h8 : matchHorBoxLabel L = none)
    (h9 : matchKwLabel (S "vl") L = none) :
    (∀ (fuel : Nat) (input : List Line) (n : Nat),
      process_line fuel input line n
        = .error ("Syntax error in line: " ++ String.mk L)) ∧
    (∀ (sep : Bool) (rest : List Line),
      process_file sep (line :: rest)
        = .error ("Syntax error in line: " ++ String.mk L)) := by
  have hp : ∀ (fuel : Nat) (input : List Line) (n : Nat),
      process_line fuel input line n
        = .error ("Syntax error in line: " ++ String.mk L) := by
    intro fuel input n
    rw [process_line]
    simp only [h2, Bool.false_eq_true, and_false, if_false,
      stripComment_ne_nil h1 h2, if_neg (stripComment_ne_nil h1 h2), hL,
      h3, h4, h5, h6, h7, h8, h9, if_false]
  refine ⟨hp, fun sep rest => ?_⟩
  unfold process_file
  rw [show 2 * (line :: rest).length + 4 = (2 * rest.length + 5) + 1 by
    simp [List.length_cons]; ring]
  rw [process_box]
  simp only [h0, Bool.false_eq_true, if_false]
  rw [hp]

/-- Witness for C4 at the unrecognized line xyz abc. -/
theorem claim_C4_syntax_error_witness :
    process_file false [S "xyz abc"] = .error "Syntax error in line: xyz abc" := by
  exact (claim_C4_syntax_error (S "xyz abc") (S "xyz abc") (by decide) (by decide)
    (by decide) (by decide) (by decide) (by decide) (by decide) (by decide)
    (by decide) (by decide) (by decide)).2 false []

/-- C8: a horizontal label with no color of its own inside a box whose
color is set renders inside the colorbox fill of the container, its own
cell carrying no color command, so it shows the container color; the
same label constructed with an explicit color renders its cell with a
cellcolor command naming that color, whatever the container holds:
the leaf renderer consults only the color stored in the leaf, and the
container contributes its color solely through its own colorbox
wrapper. -/
theorem claim_C8_color_inheritance (c0 d0 : Char) (cs ds lbl : List Char) :
    Element.to_string [] (.box .hor (c0 :: cs) false 1 [.horizontalLabel lbl []])
      = S "\\colorbox\x7b" ++ (c0 :: cs) ++
        S "\x7d\x7b%\n\\begin\x7btabular\x7d[t]\x7b|l|\x7d\n\\hline% top box border\n\\multicolumn\x7b0\x7d\x7b|c|\x7d\x7b" ++
        lbl ++
        S "\x7d \\\\\n\\hline\\noalign\x7b\\vskip 2mm\x7d% bottom box border\n\\end\x7btabular\x7d\x7d\\hspace\x7b1em\x7d" ∧
    Element.to_string [] (.box .hor (c0 :: cs) false 1 [.horizontalLabel lbl (d0 :: ds)])
      = S "\\colorbox\x7b" ++ (c0 :: cs) ++
        S "\x7d\x7b%\n\\begin\x7btabular\x7d[t]\x7b|l|\x7d\n\\hline% top box border\n\\multicolumn\x7b0\x7d\x7b|c|\x7d\x7b\\cellcolor\x7b" ++
        (d0 :: ds) ++ S "\x7d" ++ lbl ++
        S "\x7d \\\\\n\\hline\\noalign\x7b\\vskip 2mm\x7d% bottom box border\n\\end\x7btabular\x7d\x7d\\hspace\x7b1em\x7d" ∧
    (∀ anc : List BoxCtx,
      Element.to_string anc (.horizontalLabel lbl (d0 :: ds))
        = S "\\multicolumn\x7b" ++ S (toString (ctxNcol anc - 1)) ++
          S "\x7d\x7b|c|\x7d\x7b\\cellcolor\x7b" ++ (d0 :: ds) ++ S "\x7d" ++ lbl ++
          S "\x7d \\\\\n") := by
  refine ⟨?_, ?_, fun anc => ?_⟩
  · show S "\\colorbox\x7b" ++ (c0 :: cs) ++ S "\x7d\x7b%\n" ++ S "\\begin\x7btabular\x7d[t]\x7b" ++
        S "|l|" ++ S "\x7d\n" ++ S "\\hline% top box border\n" ++
        (S "\\multicolumn\x7b" ++ S "0" ++ S "\x7d\x7b|c|\x7d\x7b" ++ [] ++ lbl ++ S "\x7d \\\\\n" ++ []) ++
        [] ++ (S "\\hline" ++ S "\\noalign\x7b\\vskip 2mm\x7d% bottom box border\n") ++
        S "\\end\x7btabular\x7d\x7d\\hspace\x7b1em\x7d" = _
    simp only [List.append_assoc]
    rfl
  · show S "\\colorbox\x7b" ++ (c0 :: cs) ++ S "\x7d\x7b%\n" ++ S "\\begin\x7btabular\x7d[t]\x7b" ++
        S "|l|" ++ S "\x7d\n" ++ S "\\hline% top box border\n" ++
        (S "\\multicolumn\x7b" ++ S "0" ++ S "\x7d\x7b|c|\x7d\x7b" ++
          (S "\\cellcolor\x7b" ++ (d0 :: ds) ++ S "\x7d") ++ lbl ++ S "\x7d \\\\\n" ++ []) ++
        [] ++ (S "\\hline" ++ S "\\noalign\x7b\\vskip 2mm\x7d% bottom box border\n") ++
        S "\\end\x7btabular\x7d\x7d\\hspace\x7b1em\x7d" = _
    simp only [List.append_assoc]
    rfl
  · show S "\\multicolumn\x7b" ++ S (toString (ctxNcol anc - 1)) ++ S "\x7d\x7b|c|\x7d\x7b" ++
        (S "\\cellcolor\x7b" ++ (d0 :: ds) ++ S "\x7d") ++ lbl ++ S "\x7d \\\\\n" = _
    simp only [List.append_assoc]
    rfl

theorem mem_rstripPy {l : List Char} {a : Char} (h : a ∈ rstripPy l) : a ∈ l := by
  unfold rstripPy at h
  exact List.mem_reverse.mp
    ((List.dropWhile_suffix isSpacePy).subset (List.mem_reverse.mp h))

theorem takeWhile_append_all {p : Char → Bool} {a : List Char} (b : List Char)
    (h : ∀ c ∈ a, p c = true) : (a ++ b).takeWhile p = a ++ b.takeWhile p := by
  induction a with
  | nil => simp
  | cons c t ih =>
    rw [List.cons_append, List.takeWhile_cons, h c (List.mem_cons_self c t),
      ih (fun x hx => h x (List.mem_cons_of_mem c hx))]
    simp

theorem dropWhile_append_all {p : Char → Bool} {a : List Char} (b : List Char)
    (h : ∀ c ∈ a, p c = true) : (a ++ b).dropWhile p = b.dropWhile p := by
  induction a with
  | nil => simp
  | cons c t ih =>
    rw [List.cons_append, List.dropWhile_cons, h c (List.mem_cons_self c t)]
    exact ih (fun x hx => h x (List.mem_cons_of_mem c hx))

theorem findStyle_cons_of_none {kw : List Char} {c : Char} {t : List Char}
    (h : tryStyleAt kw (c :: t) = none) : findStyle kw (c :: t) = findStyle kw t := by
  rw [findStyle, h]

theorem findStyle_cons_of_some {kw : List Char} {c : Char} {t w rest : List Char}
    (h : tryStyleAt kw (c :: t) = some (w, rest)) : findStyle kw (c :: t) = some w := by
  rw [findStyle, h]

/-- Scanning across a prefix at whose positions the style pattern never
matches leaves the search and the substitution to act on the remainder
alone. -/
theorem scan_concat (kw pre rest : List Char)
    (h : ∀ i, i < pre.length → tryStyleAt kw (pre.drop i ++ rest) = none) :
    findStyle kw (pre ++ rest) = findStyle kw rest ∧
    subStyle kw (pre ++ rest) = pre ++ subStyle kw rest := by
  induction pre with
  | nil => simp
  | cons c t ih =>
    have h0 : tryStyleAt kw (c :: (t ++ rest)) = none := by
      have := h 0 (by simp)
      simpa using this
    have ht : ∀ i, i < t.length → tryStyleAt kw (t.drop i ++ rest) = none := by
      intro i hi
      have := h (i + 1) (by simp; omega)
      simpa using this
    refine ⟨?_, ?_⟩
    · rw [List.cons_append, findStyle_cons_of_none h0, (ih ht).1]
    · rw [List.cons_append, subStyle_cons_of_none h0, (ih ht).2, List.cons_append]

/-- A style pattern whose keyword starts with a nonspace character
matches at an opening bracket directly followed by the keyword, an
equals sign, a nonempty word and a closing bracket, capturing the word
and consuming through the closing bracket. -/
theorem tryStyleAt_bracket (k0 : Char) (kt : List Char) (hk : isSpacePy k0 = false)
    (name r : List Char) (hne : name ≠ []) (hw : ∀ c ∈ name, isWordPy c = true) :
    tryStyleAt (k0 :: kt) ('[' :: ((k0 :: kt) ++ '=' :: (name ++ ']' :: r)))
      = some (name, r) := by
  show tryStyleBody (k0 :: kt) ((k0 :: kt) ++ '=' :: (name ++ ']' :: r)) = some (name, r)
  unfold tryStyleBody
  rw [List.cons_append, List.dropWhile_cons]
  simp only [hk, Bool.false_eq_true, if_false]
  rw [← List.cons_append, stripLit_self_append]
  dsimp only
  rw [show List.dropWhile isSpacePy ('=' :: (name ++ ']' :: r))
      = '=' :: (name ++ ']' :: r) from rfl]
  show (if List.takeWhile isWordPy (name ++ ']' :: r) = [] then none
    else
      match List.dropWhile isSpacePy (List.dropWhile isWordPy (name ++ ']' :: r)) with
      | [] => none
      | c :: rest =>
        if c = ']' ∨ c = ',' then some (List.takeWhile isWordPy (name ++ ']' :: r), rest)
        else none) = some (name, r)
  rw [takeWhile_append_all (']' :: r) hw, dropWhile_append_all (']' :: r) hw,
    show (']' :: r).takeWhile isWordPy = ([] : List Char) from rfl,
    show (']' :: r).dropWhile isWordPy = ']' :: r from rfl,
    show List.dropWhile isSpacePy (']' :: r) = ']' :: r from rfl]
  simp [hne]

theorem tryColor_bracket (name r : List Char) (hne : name ≠ [])
    (hw : ∀ c ∈ name, isWordPy c = true) :
    tryStyleAt litColor ('[' :: (litColor ++ '=' :: (name ++ ']' :: r)))
      = some (name, r) := by
  rw [show litColor = 'c' :: S "olor" from rfl]
  exact tryStyleAt_bracket 'c' (S "olor") rfl name r hne hw

theorem tryAdorn_bracket (name r : List Char) (hne : name ≠ [])
    (hw : ∀ c ∈ name, isWordPy c = true) :
    tryStyleAt litAdorn ('[' :: (litAdorn ++ '=' :: (name ++ ']' :: r)))
      = some (name, r) := by
  rw [show litAdorn = 'a' :: S "dornlr" from rfl]
  exact tryStyleAt_bracket 'a' (S "dornlr") rfl name r hne hw

theorem not_hash_of_words {name : List Char} (hw : ∀ c ∈ name, isWordPy c = true) :
    '#' ∉ name := by
  intro hm
  exact absurd (hw '#' hm) (by decide)

theorem not_eq_of_words {name : List Char} (hw : ∀ c ∈ name, isWordPy c = true) :
    '=' ∉ name := by
  intro hm
  exact absurd (hw '=' hm) (by decide)

theorem matchOpenBox_space_of_ne (k0 : Char) (kt rest : List Char)
    (hk : isSpacePy k0 = false) (t0 : Char) (ts' : List Char)
    (hd : rest.dropWhile isSpacePy = t0 :: ts') (h2 : t0 ≠ '\x7b') :
    matchOpenBox (k0 :: kt) ((k0 :: kt) ++ ' ' :: rest) = false := by
  unfold matchOpenBox
  rw [show List.dropWhile isSpacePy ((k0 :: kt) ++ ' ' :: rest)
      = (k0 :: kt) ++ ' ' :: rest from by
    rw [List.cons_append, List.dropWhile_cons]
    simp [hk]]
  rw [stripLit_self_append]
  dsimp only
  rw [show List.dropWhile isSpacePy (' ' :: rest) = rest.dropWhile isSpacePy from rfl, hd]
  simp [h2]

theorem matchKwLabel_space (k0 : Char) (kt rest : List Char)
    (hk : isSpacePy k0 = false) :
    matchKwLabel (k0 :: kt) ((k0 :: kt) ++ ' ' :: rest)
      = some (rest.dropWhile isSpacePy) := by
  unfold matchKwLabel
  rw [show List.dropWhile isSpacePy ((k0 :: kt) ++ ' ' :: rest)
      = (k0 :: kt) ++ ' ' :: rest from by
    rw [List.cons_append, List.dropWhile_cons]
    simp [hk]]
  rw [stripLit_self_append]
  rfl

theorem matchHorBoxLabel_space (rest : List Char) (t0 : Char) (ts' : List Char)
    (hd : rest.dropWhile isSpacePy = t0 :: ts') (h2 : t0 ≠ '\x7b') :
    matchHorBoxLabel (S "hbox" ++ ' ' :: rest) = some (t0 :: ts') := by
  unfold matchHorBoxLabel
  rw [show List.dropWhile isSpacePy (S "hbox" ++ ' ' :: rest)
      = S "hbox" ++ ' ' :: rest from rfl]
  rw [stripLit_self_append]
  dsimp only
  rw [show List.dropWhile isSpacePy (' ' :: rest) = rest.dropWhile isSpacePy from rfl, hd]
  simp [h2, show isSpacePy ' ' = true from rfl]

/-- C3 counterexample: the shorthand and the block form do not render
identically for every label text.  For the text Foo followed by a
color annotation, the shorthand attaches the extracted color to the
generated box as well as to its label, while the block form leaves the
box colorless, because the bare hbox open line carries no annotation;
the two parse results differ in the box color and their rendered
markups differ (a colorbox wrapper against a plain group). -/
theorem claim_C3_cex :
    process_line 3 [] (S "hbox Foo [color=red]") 1
      = .ok (some (.box .hor (S "red") false 1
          [.horizontalLabel (S "Foo ") (S "red")]), []) ∧
    process_line 3 [S "hl Foo [color=red]", S "\x7d"] (S "hbox \x7b") 1
      = .ok (some (.box .hor [] false 1
          [.horizontalLabel (S "Foo ") (S "red")]), []) ∧
    Element.to_string [] (.box .hor (S "red") false 1
        [.horizontalLabel (S "Foo ") (S "red")])
      ≠ Element.to_string [] (.box .hor [] false 1
        [.horizontalLabel (S "Foo ") (S "red")]) :=
  ⟨rfl, rfl, by decide⟩

/-- C3 amended: for every label text that carries no annotation and no
comment (no equals sign and no hash character) and whose first
character is neither whitespace nor an opening brace, the single line
hbox shorthand parses to exactly the same element, with the same
remaining input, as the three line block form that opens an hbox, adds
one horizontal label with the text, and closes the box; both forms
yield a horizontal box of one column holding one horizontal label, so
their rendered markup is identical.  A text carrying a color
annotation is a genuine exception: the shorthand attaches the color to
the box, the block form does not. -/
theorem claim_C3_shorthand (f n : Nat) (t0 : Char) (ts : List Char)
    (h1 : isSpacePy t0 = false) (h2 : t0 ≠ '\x7b')
    (h3 : '=' ∉ t0 :: ts) (h4 : '#' ∉ t0 :: ts) :
    process_line (f + 3) [] (S "hbox " ++ t0 :: ts) n
      = process_line (f + 3) [S "hl " ++ t0 :: ts, S "\x7d"] (S "hbox \x7b") n ∧
    process_line (f + 3) [] (S "hbox " ++ t0 :: ts) n
      = .ok (some (.box .hor [] false 1
          [.horizontalLabel (t0 :: rstripPy ts) []]), []) := by
  have hT : rstripPy (t0 :: ts) = t0 :: rstripPy ts := rstripPy_cons_of_nonspace h1
  have hTne : rstripPy (t0 :: ts) ≠ [] := by rw [hT]; simp
  have hmemT : ∀ a : Char, a ∈ t0 :: rstripPy ts → a ∈ t0 :: ts := by
    intro a ha
    rcases List.mem_cons.mp ha with h | h
    · exact h ▸ List.mem_cons_self _ _
    · exact List.mem_cons_of_mem _ (mem_rstripPy h)
  have hdropT : List.dropWhile isSpacePy (t0 :: rstripPy ts) = t0 :: rstripPy ts := by
    rw [List.dropWhile_cons]
    simp [h1]
  have hA : process_line (f + 3) [] (S "hbox " ++ t0 :: ts) n
      = .ok (some (.box .hor [] false 1
          [.horizontalLabel (t0 :: rstripPy ts) []]), []) := by
    have hne3 : '=' ∉ S "hbox " ++ (t0 :: rstripPy ts) := by
      intro hm
      rcases List.mem_append.mp hm with h | h
      · exact absurd h (by decide)
      · exact h3 (hmemT _ h)
    have hnh : '#' ∉ S "hbox " ++ (t0 :: rstripPy ts) := by
      intro hm
      rcases List.mem_append.mp hm with h | h
      · exact absurd h (by decide)
      · exact h4 (hmemT _ h)
    simp only [process_line]
    rw [rstripPy_append_of_ne _ hTne, hT]
    simp only [show matchEmpty (S "hbox " ++ (t0 :: rstripPy ts)) = false from rfl,
      Bool.false_eq_true, and_false, if_false]
    rw [stripComment_eq_self hnh]
    rw [if_neg (show ¬(S "hbox " ++ (t0 :: rstripPy ts) = []) from by simp)]
    rw [process_style_of_no_eq hne3]
    dsimp only
    rw [process_style_of_no_eq hne3]
    dsimp only
    rw [show matchOpenBox (S "hbox") (S "hbox " ++ (t0 :: rstripPy ts))
        = matchOpenBox ('h' :: S "box") (('h' :: S "box") ++ ' ' :: (t0 :: rstripPy ts))
        from rfl,
      matchOpenBox_space_of_ne 'h' (S "box") _ rfl t0 _ hdropT h2]
    rw [show matchOpenBox (S "vbox") (S "hbox " ++ (t0 :: rstripPy ts)) = false from rfl]
    rw [show matchOpenBox (S "pbox") (S "hbox " ++ (t0 :: rstripPy ts)) = false from rfl]
    rw [show matchKwLabel (S "hl") (S "hbox " ++ (t0 :: rstripPy ts)) = none from rfl]
    rw [show matchKwLabel (S "hspace") (S "hbox " ++ (t0 :: rstripPy ts)) = none from rfl]
    rw [show matchHorBoxLabel (S "hbox " ++ (t0 :: rstripPy ts))
        = matchHorBoxLabel (S "hbox" ++ ' ' :: (t0 :: rstripPy ts)) from rfl,
      matchHorBoxLabel_space _ t0 _ hdropT h2]
    simp [Element.add_element, Element.required_columns]
  have hHL : ∀ (g : Nat) (input : List Line) (m : Nat),
      process_line g input (S "hl " ++ t0 :: ts) m
        = .ok (some (.horizontalLabel (t0 :: rstripPy ts) []), input) := by
    intro g input m
    have hne3 : '=' ∉ S "hl " ++ (t0 :: rstripPy ts) := by
      intro hm
      rcases List.mem_append.mp hm with h | h
      · exact absurd h (by decide)
      · exact h3 (hmemT _ h)
    have hnh : '#' ∉ S "hl " ++ (t0 :: rstripPy ts) := by
      intro hm
      rcases List.mem_append.mp hm with h | h
      · exact absurd h (by decide)
      · exact h4 (hmemT _ h)
    simp only [process_line]
    rw [rstripPy_append_of_ne _ hTne, hT]
    simp only [show matchEmpty (S "hl " ++ (t0 :: rstripPy ts)) = false from rfl,
      Bool.false_eq_true, and_false, if_false]
    rw [stripComment_eq_self hnh]
    rw [if_neg (show ¬(S "hl " ++ (t0 :: rstripPy ts) = []) from by simp)]
    rw [process_style_of_no_eq hne3]
    dsimp only
    rw [process_style_of_no_eq hne3]
    dsimp only
    rw [show matchOpenBox (S "hbox") (S "hl " ++ (t0 :: rstripPy ts)) = false from rfl]
    rw [show matchOpenBox (S "vbox") (S "hl " ++ (t0 :: rstripPy ts)) = false from rfl]
    rw [show matchOpenBox (S "pbox") (S "hl " ++ (t0 :: rstripPy ts)) = false from rfl]
    rw [show matchKwLabel (S "hl") (S "hl " ++ (t0 :: rstripPy ts))
        = matchKwLabel ('h' :: S "l") (('h' :: S "l") ++ ' ' :: (t0 :: rstripPy ts))
        from rfl,
      matchKwLabel_space 'h' (S "l") _ rfl, hdropT]
    simp
  have hB : process_line (f + 3) [S "hl " ++ t0 :: ts, S "\x7d"] (S "hbox \x7b") n
      = .ok (some (.box .hor [] false 1
          [.horizontalLabel (t0 :: rstripPy ts) []]), []) := by
    rw [show process_line (f + 3) [S "hl " ++ t0 :: ts, S "\x7d"] (S "hbox \x7b") n
        = (match process_box (f + 2) [S "hl " ++ t0 :: ts, S "\x7d"]
            (Element.box .hor [] false 1 []) with
          | .error e => .error e
          | .ok (b, rest) => .ok (some b, rest)) from rfl]
    rw [show f + 2 = (f + 1) + 1 from rfl]
    rw [process_box]
    rw [show matchBlockEnd (S "hl " ++ t0 :: ts) = false from rfl]
    show (match (match process_line (f + 1) [S "\x7d"] (S "hl " ++ t0 :: ts)
        (Element.box .hor [] false 1 []).get_ncol with
      | Except.error e => Except.error e
      | Except.ok (some el, rest2) => process_box (f + 1) rest2
          ((Element.box .hor [] false 1 []).add_element el)
      | Except.ok (none, rest2) => process_box (f + 1) rest2
          (Element.box .hor [] false 1 [])) with
      | Except.error e => Except.error e
      | Except.ok (b, rest) => Except.ok (some b, rest)) = _
    rw [hHL]
    show (match process_box (f + 1) [S "\x7d"]
        ((Element.box .hor [] false 1 []).add_element
          (Element.horizontalLabel (t0 :: rstripPy ts) [])) with
      | Except.error e => Except.error e
      | Except.ok (b, rest) => Except.ok (some b, rest)) = _
    rw [show (Element.box .hor [] false 1 []).add_element
        (Element.horizontalLabel (t0 :: rstripPy ts) [])
        = Element.box .hor [] false 1 [Element.horizontalLabel (t0 :: rstripPy ts) []]
        from rfl]
    rw [process_box]
    rw [show matchBlockEnd (S "\x7d") = true from rfl]
    simp
  exact ⟨hA.trans hB.symm, hA⟩

/-- Witness for C3 at the label text Foo. -/
theorem claim_C3_shorthand_witness :
    process_line 3 [] (S "hbox Foo") 1
      = process_line 3 [S "hl Foo", S "\x7d"] (S "hbox \x7b") 1 ∧
    process_line 3 [] (S "hbox Foo") 1
      = .ok (some (.box .hor [] false 1 [.horizontalLabel (S "Foo") []]), []) := by
  have h := claim_C3_shorthand 0 1 'F' (S "oo") (by decide) (by decide)
    (by decide) (by decide)
  exact ⟨h.1, h.2⟩

/-- Unfolding of process_line once the blank, comment and annotation
steps are known: the remaining classification acts on the stripped line
with the extracted color and adornment values. -/
theorem process_line_classify (fuel : Nat) (input : List Line) (n : Nat)
    (line l3 l4 color adorn : List Char)
    (h1 : rstripPy line = line)
    (h2 : matchEmpty line = false)
    (h3 : line ≠ [])
    (h4 : stripComment line = line)
    (h5 : process_style litColor line = (l3, color))
    (h6 : process_style litAdorn l3 = (l4, adorn)) :
    process_line fuel input line n =
      (if matchOpenBox (S "hbox") l4 then
        match fuel with
        | 0 => .error "recursion limit exceeded"
        | f + 1 =>
          match process_box f input (.box .hor color false 1 []) with
          | .error e => .error e
          | .ok (b, rest) => .ok (some b, rest)
      else if matchOpenBox (S "vbox") l4 then
        match fuel with
        | 0 => .error "recursion limit exceeded"
        | f + 1 =>
          match process_box f input (.box .ver color false 1 []) with
          | .error e => .error e
          | .ok (b, rest) => .ok (some b, rest)
      else if matchOpenBox (S "pbox") l4 then
        match fuel with
        | 0 => .error "recursion limit exceeded"
        | f + 1 =>
          match process_box f input (.box .plain color false 1 []) with
          | .error e => .error e
          | .ok (b, rest) => .ok (some b, rest)
      else
        match matchKwLabel (S "hl") l4 with
        | some g =>
          .ok (some (.horizontalLabel
            ((if adorn = [] then [] else S "$\\" ++ adorn ++ S "$ ") ++ g ++
              (if adorn = [] then [] else S " $\\" ++ adorn ++ S "$")) color), input)
        | none =>
          match matchKwLabel (S "hspace") l4 with
          | some g => .ok (some (.horizontalSpace g), input)
          | none =>
            match matchHorBoxLabel l4 with
            | some g =>
              .ok (some ((Element.box .hor color false 1 []).add_element
                (.horizontalLabel
                  ((if adorn = [] then [] else S "$\\" ++ adorn ++ S "$ ") ++ g ++
                    (if adorn = [] then [] else S " $\\" ++ adorn ++ S "$")) color)), input)
            | none =>
              match matchKwLabel (S "vl") l4 with
              | some g => .ok (some (.verticalLabel g color n), input)
              | none => .error ("Syntax error in line: " ++ String.mk l4)) := by
  simp only [process_line, h1, h2, Bool.false_eq_true, and_false, if_false, h4]
  rw [if_neg h3, h5]
  dsimp only
  rw [h6]

/-- Extraction of a color annotation followed by an adornment
annotation from a line: the color pass captures the name and removes
its bracketed group, leaving the adornment group intact; the adornment
pass then captures the symbol and removes its group. -/
theorem process_style_pair (pre tail0 name sym : List Char)
    (hnne : name ≠ []) (hnw : ∀ c ∈ name, isWordPy c = true)
    (hsne : sym ≠ []) (hsw : ∀ c ∈ sym, isWordPy c = true)
    (ht0 : '=' ∉ tail0)
    (hpreC : ∀ i, i < pre.length →
      tryStyleAt litColor (pre.drop i ++ ('[' :: (litColor ++ '=' :: (name ++ ']' ::
        ('[' :: (litAdorn ++ '=' :: (sym ++ ']' :: tail0))))))) = none)
    (hpreA : ∀ i, i < pre.length →
      tryStyleAt litAdorn (pre.drop i ++
        ('[' :: (litAdorn ++ '=' :: (sym ++ ']' :: tail0)))) = none) :
    process_style litColor
        (pre ++ ('[' :: (litColor ++ '=' :: (name ++ ']' ::
          ('[' :: (litAdorn ++ '=' :: (sym ++ ']' :: tail0)))))))
      = (pre ++ ('[' :: (litAdorn ++ '=' :: (sym ++ ']' :: tail0))), name) ∧
    process_style litAdorn (pre ++ ('[' :: (litAdorn ++ '=' :: (sym ++ ']' :: tail0))))
      = (pre ++ tail0, sym) := by
  have hbrC := tryColor_bracket name
    ('[' :: (litAdorn ++ '=' :: (sym ++ ']' :: tail0))) hnne hnw
  have hbrA := tryAdorn_bracket sym tail0 hsne hsw
  have hinner : subStyle litColor ('[' :: (litAdorn ++ '=' :: (sym ++ ']' :: tail0)))
      = '[' :: (litAdorn ++ '=' :: (sym ++ ']' :: tail0)) := by
    rw [show ('[' :: (litAdorn ++ '=' :: (sym ++ ']' :: tail0)))
        = S "[adornlr=" ++ (sym ++ ']' :: tail0) from rfl]
    rw [(scan_concat litColor (S "[adornlr=") (sym ++ ']' :: tail0) (by
      intro i hi
      rw [show (S "[adornlr=").length = 9 from rfl] at hi
      interval_cases i <;> rfl)).2]
    rw [subStyle_eq_self_of_no_eq (by
      intro hm
      rcases List.mem_append.mp hm with h | h
      · exact not_eq_of_words hsw h
      · rcases List.mem_cons.mp h with h | h
        · exact absurd h (by decide)
        · exact ht0 h)]
  constructor
  · unfold process_style
    rw [(scan_concat litColor pre _ hpreC).1, findStyle_cons_of_some hbrC]
    rw [(scan_concat litColor pre _ hpreC).2, subStyle_cons_of_some hbrC, hinner]
  · unfold process_style
    rw [(scan_concat litAdorn pre _ hpreA).1, findStyle_cons_of_some hbrA]
    rw [(scan_concat litAdorn pre _ hpreA).2, subStyle_cons_of_some hbrA]
    rw [subStyle_eq_self_of_no_eq ht0]

theorem hash_free_double (pre tail0 name sym : List Char)
    (hpre : '#' ∉ pre) (h0 : '#' ∉ tail0)
    (hnw : ∀ c ∈ name, isWordPy c = true) (hsw : ∀ c ∈ sym, isWordPy c = true) :
    '#' ∉ pre ++ ('[' :: (litColor ++ '=' :: (name ++ ']' ::
      ('[' :: (litAdorn ++ '=' :: (sym ++ ']' :: tail0)))))) := by
  intro hm
  rcases List.mem_append.mp hm with h | h
  · exact hpre h
  rcases List.mem_cons.mp h with h | h
  · exact absurd h (by decide)
  rcases List.mem_append.mp h with h | h
  · exact absurd h (by decide)
  rcases List.mem_cons.mp h with h | h
  · exact absurd h (by decide)
  rcases List.mem_append.mp h with h | h
  · exact not_hash_of_words hnw h
  rcases List.mem_cons.mp h with h | h
  · exact absurd h (by decide)
  rcases List.mem_cons.mp h with h | h
  · exact absurd h (by decide)
  rcases List.mem_append.mp h with h | h
  · exact absurd h (by decide)
  rcases List.mem_cons.mp h with h | h
  · exact absurd h (by decide)
  rcases List.mem_append.mp h with h | h
  · exact not_hash_of_words hsw h
  rcases List.mem_cons.mp h with h | h
  · exact absurd h (by decide)
  exact h0 h

theorem rstrip_double (pre tail0 name sym : List Char)
    (ht : rstripPy (']' :: tail0) = ']' :: tail0) :
    rstripPy (pre ++ ('[' :: (litColor ++ '=' :: (name ++ ']' ::
        ('[' :: (litAdorn ++ '=' :: (sym ++ ']' :: tail0)))))))
      = pre ++ ('[' :: (litColor ++ '=' :: (name ++ ']' ::
        ('[' :: (litAdorn ++ '=' :: (sym ++ ']' :: tail0)))))) := by
  have hassoc : pre ++ ('[' :: (litColor ++ '=' :: (name ++ ']' ::
        ('[' :: (litAdorn ++ '=' :: (sym ++ ']' :: tail0))))))
      = (pre ++ ('[' :: (litColor ++ '=' :: (name ++ ']' ::
        ('[' :: (litAdorn ++ '=' :: sym)))))) ++ (']' :: tail0) := by
    simp [List.append_assoc]
  rw [hassoc, rstripPy_append_of_ne _ (by rw [ht]; simp), ht]

/-- C6 counterexample: annotations are extracted from every directive
line but not attached to every resulting element: a color annotation on
an hspace line is removed from the line yet the HorizontalSpace element
carries no color at all, and an adornment annotation on a vl line is
removed yet the vertical label text is left unadorned. -/
theorem claim_C6_cex :
    process_line 1 [] (S "hspace 1em [color=red]") 1
      = .ok (some (.horizontalSpace (S "1em ")), []) ∧
    process_line 1 [] (S "vl Foo [adornlr=wedge]") 5
      = .ok (some (.verticalLabel (S "Foo ") [] 5), []) :=
  ⟨rfl, rfl⟩

/-- C6 amended: color and adornment annotations are extracted, removed
from the line, before classification, for every directive kind; the
extracted color is attached to hl labels, vl labels, box opens and the
shorthand box together with its inner label, but not to hspace
elements; the extracted adornment wraps only horizontal label text, in
the hl and shorthand forms, and is discarded for vl, hspace and box
open lines. -/
theorem claim_C6_annotations (f n : Nat) (input : List Line) (name sym : List Char)
    (hnne : name ≠ []) (hnw : ∀ c ∈ name, isWordPy c = true)
    (hsne : sym ≠ []) (hsw : ∀ c ∈ sym, isWordPy c = true) :
    process_line f input (S "hl Foo " ++ ('[' :: (litColor ++ '=' :: (name ++ ']' ::
        ('[' :: (litAdorn ++ '=' :: (sym ++ ']' :: []))))))) n
      = .ok (some (.horizontalLabel
          (S "$\\" ++ sym ++ S "$ " ++ S "Foo " ++ S " $\\" ++ sym ++ S "$") name),
        input) ∧
    process_line f input (S "vl Foo " ++ ('[' :: (litColor ++ '=' :: (name ++ ']' ::
        ('[' :: (litAdorn ++ '=' :: (sym ++ ']' :: []))))))) n
      = .ok (some (.verticalLabel (S "Foo ") name n), input) ∧
    process_line f input (S "hspace 1em " ++ ('[' :: (litColor ++ '=' :: (name ++ ']' ::
        ('[' :: (litAdorn ++ '=' :: (sym ++ ']' :: []))))))) n
      = .ok (some (.horizontalSpace (S "1em ")), input) ∧
    process_line (f + 1) [] (S "hbox " ++ ('[' :: (litColor ++ '=' :: (name ++ ']' ::
        ('[' :: (litAdorn ++ '=' :: (sym ++ ']' :: S " \x7b"))))))) n
      = .ok (some (.box .hor name false 1 []), []) ∧
    process_line f input (S "hbox Foo " ++ ('[' :: (litColor ++ '=' :: (name ++ ']' ::
        ('[' :: (litAdorn ++ '=' :: (sym ++ ']' :: []))))))) n
      = .ok (some (.box .hor name false 1
          [.horizontalLabel
            (S "$\\" ++ sym ++ S "$ " ++ S "Foo " ++ S " $\\" ++ sym ++ S "$") name]),
        input) := by
  refine ⟨?_, ?_, ?_, ?_, ?_⟩
  · have hps := process_style_pair (S "hl Foo ") [] name sym hnne hnw hsne hsw
      (by decide)
      (by intro i hi
          rw [show (S "hl Foo ").length = 7 from rfl] at hi
          interval_cases i <;> rfl)
      (by intro i hi
          rw [show (S "hl Foo ").length = 7 from rfl] at hi
          interval_cases i <;> rfl)
    have hr := rstrip_double (S "hl Foo ") [] name sym rfl
    have hhash := stripComment_eq_self
      (hash_free_double (S "hl Foo ") [] name sym (by decide) (by decide) hnw hsw)
    have step := process_line_classify f input n _ _ _ _ _ hr (by rfl)
      (by intro hc; exact absurd (List.append_eq_nil.mp hc).2 (by simp))
      hhash hps.1 hps.2
    rw [step]
    simp only [List.append_nil]
    show Except.ok (some (Element.horizontalLabel
        ((if sym = [] then [] else S "$\\" ++ sym ++ S "$ ") ++ S "Foo " ++
          (if sym = [] then [] else S " $\\" ++ sym ++ S "$")) name), input) = _
    simp [hsne, List.append_assoc]
  · have hps := process_style_pair (S "vl Foo ") [] name sym hnne hnw hsne hsw
      (by decide)
      (by intro i hi
          rw [show (S "vl Foo ").length = 7 from rfl] at hi
          interval_cases i <;> rfl)
      (by intro i hi
          rw [show (S "vl Foo ").length = 7 from rfl] at hi
          interval_cases i <;> rfl)
    have hr := rstrip_double (S "vl Foo ") [] name sym rfl
    have hhash := stripComment_eq_self
      (hash_free_double (S "vl Foo ") [] name sym (by decide) (by decide) hnw hsw)
    have step := process_line_classify f input n _ _ _ _ _ hr (by rfl)
      (by intro hc; exact absurd (List.append_eq_nil.mp hc).2 (by simp))
      hhash hps.1 hps.2
    rw [step]
    simp only [List.append_nil]
    rfl
  · have hps := process_style_pair (S "hspace 1em ") [] name sym hnne hnw hsne hsw
      (by decide)
      (by intro i hi
          rw [show (S "hspace 1em ").length = 11 from rfl] at hi
          interval_cases i <;> rfl)
      (by intro i hi
          rw [show (S "hspace 1em ").length = 11 from rfl] at hi
          interval_cases i <;> rfl)
    have hr := rstrip_double (S "hspace 1em ") [] name sym rfl
    have hhash := stripComment_eq_self
      (hash_free_double (S "hspace 1em ") [] name sym (by decide) (by decide) hnw hsw)
    have step := process_line_classify f input n _ _ _ _ _ hr (by rfl)
      (by intro hc; exact absurd (List.append_eq_nil.mp hc).2 (by simp))
      hhash hps.1 hps.2
    rw [step]
    simp only [List.append_nil]
    rfl
  · have hps := process_style_pair (S "hbox ") (S " \x7b") name sym hnne hnw hsne hsw
      (by decide)
      (by intro i hi
          rw [show (S "hbox ").length = 5 from rfl] at hi
          interval_cases i <;> rfl)
      (by intro i hi
          rw [show (S "hbox ").length = 5 from rfl] at hi
          interval_cases i <;> rfl)
    have hr := rstrip_double (S "hbox ") (S " \x7b") name sym rfl
    have hhash := stripComment_eq_self
      (hash_free_double (S "hbox ") (S " \x7b") name sym (by decide) (by decide) hnw hsw)
    have step := process_line_classify (f + 1) [] n _ _ _ _ _ hr (by rfl)
      (by intro hc; exact absurd (List.append_eq_nil.mp hc).2 (by simp))
      hhash hps.1 hps.2
    rw [step]
    rw [show matchOpenBox (S "hbox") (S "hbox " ++ S " \x7b") = true from rfl]
    rw [if_pos rfl]
    rw [show f + 1 = Nat.succ f from rfl]
    show (match process_box f [] (Element.box .hor name false 1 []) with
      | Except.error e => Except.error e
      | Except.ok (b, rest) => Except.ok (some b, rest)) = _
    rw [process_box_nil]
  · have hps := process_style_pair (S "hbox Foo ") [] name sym hnne hnw hsne hsw
      (by decide)
      (by intro i hi
          rw [show (S "hbox Foo ").length = 9 from rfl] at hi
          interval_cases i <;> rfl)
      (by intro i hi
          rw [show (S "hbox Foo ").length = 9 from rfl] at hi
          interval_cases i <;> rfl)
    have hr := rstrip_double (S "hbox Foo ") [] name sym rfl
    have hhash := stripComment_eq_self
      (hash_free_double (S "hbox Foo ") [] name sym (by decide) (by decide) hnw hsw)
    have step := process_line_classify f input n _ _ _ _ _ hr (by rfl)
      (by intro hc; exact absurd (List.append_eq_nil.mp hc).2 (by simp))
      hhash hps.1 hps.2
    rw [step]
    simp only [List.append_nil]
    show Except.ok (some (Element.box .hor name false 1
        [Element.horizontalLabel
          ((if sym = [] then [] else S "$\\" ++ sym ++ S "$ ") ++ S "Foo " ++
            (if sym = [] then [] else S " $\\" ++ sym ++ S "$")) name]), input) = _
    simp [hsne, List.append_assoc]

/-- Witness for the C6 amended theorem at color red and adornment
symbol wedge. -/
theorem claim_C6_annotations_witness :
    process_line 0 [] (S "hl Foo " ++ ('[' :: (litColor ++ '=' :: (S "red" ++ ']' ::
        ('[' :: (litAdorn ++ '=' :: (S "wedge" ++ ']' :: []))))))) 2
      = .ok (some (.horizontalLabel
          (S "$\\" ++ S "wedge" ++ S "$ " ++ S "Foo " ++ S " $\\" ++ S "wedge" ++ S "$")
          (S "red")), []) ∧
    process_line 1 [] (S "hbox " ++ ('[' :: (litColor ++ '=' :: (S "red" ++ ']' ::
        ('[' :: (litAdorn ++ '=' :: (S "wedge" ++ ']' :: S " \x7b"))))))) 2
      = .ok (some (.box .hor (S "red") false 1 []), []) :=
  ⟨(claim_C6_annotations 0 2 [] (S "red") (S "wedge") (by decide) (by decide)
      (by decide) (by decide)).1,
   (claim_C6_annotations 0 2 [] (S "red") (S "wedge") (by decide) (by decide)
      (by decide) (by decide)).2.2.2.1⟩

end Hbd2Tex
